import Mathlib

/-!
Shallow embedding of Tendis's replication command layer
(`src/tendisplus/commands/repl.cpp`): the pullbinlogs, restorebinlog,
applybinlogs and slaveof commands, together with the data model they
operate on (binlog records, per-shard stores, the replication manager's
source-descriptor table).

Machine integers (uint64 transaction ids, shard ids, ports) are modelled
as `Nat`: none of the involved code performs arithmetic that can
overflow (the only arithmetic is `txnId + 1` on a cursor position).
Byte strings are modelled as `List Nat`.  External collaborators that
are not part of the repository under verification (the storage engine's
record codecs, the binlog cursor, the shard locator, the replication
manager) are modelled from the spec and marked as such in their doc
comments.
-/

deriving instance DecidableEq for Except

namespace TendisRepl

/-- Byte-sequence arguments and encoded payloads (C++ `std::string`). -/
abbrev Buf := List Nat

/-- Error codes used by the commands in `repl.cpp` (`ErrorCodes` enum). -/
inductive ErrorCodes where
  | ERR_OK
  | ERR_PARSEOPT
  | ERR_PARSEPKT
  | ERR_EXHAUST
  | ERR_INTERNAL
  | ERR_NOTFOUND
deriving DecidableEq

/-- A `Status`: error code plus human-readable message. -/
structure Status where
  code : ErrorCodes
  msg : String
deriving DecidableEq

/-- Modelled from the spec: `groupFlags: bitset{GROUP_START, GROUP_END}`;
the two flags occupy distinct bits of the uint16 flag word
(`ReplFlag::REPL_GROUP_START`). -/
def REPL_GROUP_START : Nat := 1

/-- Modelled from the spec: the `GROUP_END` bit (`ReplFlag::REPL_GROUP_END`). -/
def REPL_GROUP_END : Nat := 2

/-- Binlog operation kind (`ReplOp`): SET, DELETE, or neither
(the command's `default:` branch treats anything else as invalid). -/
inductive ReplOp where
  | REPL_OP_NONE
  | REPL_OP_SET
  | REPL_OP_DEL
deriving DecidableEq

/-- `ReplLogKey`: transaction id plus group-framing flag bits. -/
structure ReplLogKey where
  txnId : Nat
  flag : Nat
deriving DecidableEq

/-- `ReplLogValue`: operation, encoded target key, encoded target value. -/
structure ReplLogValue where
  op : ReplOp
  opKey : Buf
  opValue : Buf
deriving DecidableEq

/-- One binlog record (`ReplLog`), owning a key and a value. -/
structure ReplLog where
  key : ReplLogKey
  value : ReplLogValue
deriving DecidableEq

instance : Inhabited ReplLog :=
  ⟨⟨⟨0, 0⟩, ⟨ReplOp.REPL_OP_NONE, [], []⟩⟩⟩

def ReplOp.tag : ReplOp → Nat
  | .REPL_OP_NONE => 0
  | .REPL_OP_SET => 1
  | .REPL_OP_DEL => 2

def ReplOp.ofTag : Nat → Option ReplOp
  | 0 => some .REPL_OP_NONE
  | 1 => some .REPL_OP_SET
  | 2 => some .REPL_OP_DEL
  | _ => none

/-- Modelled from the spec: `ReplLog` is "externally serialized as an
opaque (keyBytes, valueBytes) pair", round-trippable; the concrete wire
layout lives in the excluded storage layer.  We fix one injective
layout: key = [txnId, flag]; value = [opTag, |opKey|] ++ opKey ++ opValue. -/
def ReplLog.encode (r : ReplLog) : Buf × Buf :=
  ([r.key.txnId, r.key.flag],
   [r.value.op.tag, r.value.opKey.length] ++ r.value.opKey ++ r.value.opValue)

/-- Modelled from the spec: `ReplLog::decode(keyBytes, valueBytes)`,
the partial inverse of `ReplLog.encode`; any ill-formed pair fails with
a parse error. -/
def ReplLog.decode (k v : Buf) : Except Status ReplLog :=
  match k with
  | [txnId, flag] =>
    match v with
    | tag :: keyLen :: rest =>
      match ReplOp.ofTag tag with
      | none => .error ⟨.ERR_PARSEOPT, "invalid binlog value"⟩
      | some op =>
        if keyLen ≤ rest.length then
          .ok ⟨⟨txnId, flag⟩, ⟨op, rest.take keyLen, rest.drop keyLen⟩⟩
        else .error ⟨.ERR_PARSEOPT, "invalid binlog value"⟩
    | _ => .error ⟨.ERR_PARSEOPT, "invalid binlog value"⟩
  | _ => .error ⟨.ERR_PARSEOPT, "invalid binlog key"⟩

/-- Modelled from the spec: the storage engine's `RecordKey` encoding is
explicitly out of scope ("this spec does not define the storage engine's
record encoding scheme"), so the record key is the raw byte payload. -/
abbrev RecordKey := Buf

/-- Modelled from the spec: `RecordKey::decode`, opaque round-trippable. -/
def RecordKey.decode (b : Buf) : Except Status RecordKey := .ok b

/-- Modelled from the spec: `RecordKey::encode`, opaque round-trippable. -/
def RecordKey.encode (k : RecordKey) : Buf := k

/-- Modelled from the spec: raw storage `RecordValue` payload, opaque. -/
abbrev RecordValue := Buf

/-- Modelled from the spec: `RecordValue::decode`, opaque round-trippable. -/
def RecordValue.decode (b : Buf) : Except Status RecordValue := .ok b

/-- Modelled from the spec: `RecordValue::encode`, opaque round-trippable. -/
def RecordValue.encode (v : RecordValue) : Buf := v

/-- Modelled from the spec: `::tendisplus::stoul` from the excluded
string-utility layer — parse a decimal unsigned integer, failing on an
empty or non-digit byte sequence. -/
def stoul (b : Buf) : Except Status Nat :=
  if b = [] then .error ⟨.ERR_PARSEOPT, "invalid integer"⟩
  else if b.all (fun c => decide (48 ≤ c ∧ c ≤ 57)) then
    .ok (b.foldl (fun acc c => acc * 10 + (c - 48)) 0)
  else .error ⟨.ERR_PARSEOPT, "invalid integer"⟩

/-- Lock modes taken through the segment manager (`mgl::LockMode`). -/
inductive LockMode where
  | LOCK_IS
  | LOCK_IX
  | LOCK_X
deriving DecidableEq

/-- One pending write buffered inside an uncommitted storage transaction. -/
inductive WriteOp where
  | setKV (key value : Buf)
  | delKV (key : Buf)
deriving DecidableEq

/-- Modelled from the spec: the storage transaction handle; `setKV` and
`delKV` buffer writes that only become visible at `commit`. -/
structure Txn where
  pending : List WriteOp
deriving DecidableEq

def Txn.setKV (t : Txn) (key value : Buf) (_timestamp : Nat) : Txn :=
  ⟨t.pending ++ [WriteOp.setKV key value]⟩

def Txn.delKV (t : Txn) (key : Buf) (_timestamp : Nat) : Txn :=
  ⟨t.pending ++ [WriteOp.delKV key]⟩

/-- Upsert into an association list keyed by encoded record key. -/
def assocSet : List (Buf × Buf) → Buf → Buf → List (Buf × Buf)
  | [], k, v => [(k, v)]
  | (k', v') :: rest, k, v =>
    if k' = k then (k, v) :: rest else (k', v') :: assocSet rest k v

/-- Apply one buffered write to a key/value table. -/
def applyWrite (kv : List (Buf × Buf)) : WriteOp → List (Buf × Buf)
  | .setKV k v => assocSet kv k v
  | .delKV k => kv.filter (fun p => decide (p.1 ≠ k))

/-- One shard's store (`KVStore`): open flag, committed key/value table,
committed binlog, and failure oracles for the external transaction
machinery (create/commit may fail with a storage error). -/
structure Store where
  isOpen : Bool
  kv : List (Buf × Buf)
  binlog : List ReplLog
  createTxnFail : Option Status
  commitFail : Option Status
deriving DecidableEq

/-- A shard's replication-source descriptor
{sourceHost, sourcePort, sourceShardId}; detached is ⟨[], 0, 0⟩. -/
structure SourceDesc where
  host : Buf
  port : Nat
  sourceStoreId : Nat
deriving DecidableEq

/-- Modelled from the spec: the replication manager's in-memory state —
the per-shard source-descriptor table plus failure oracles for its
external entry points (`changeReplSource`, `applyBinlogs`). -/
structure ReplMgr where
  sources : List SourceDesc
  changeFail : Nat → Option Status
  applyFail : Option Status

/-- The server: the shard stores (`getKVStoreCount()` is their number)
and the replication manager. -/
structure Server where
  stores : List Store
  replMgr : ReplMgr

/-- Modelled from the spec: the shard locator
`getShard(requester, shardId, lockMode, tolerateClosed=false)`; fails if
the shard does not exist, or (unless tolerant) if it is not open. -/
def getDb (svr : Server) (storeId : Nat) (tolerateClosed : Bool) :
    Except Status Store :=
  match svr.stores.get? storeId with
  | none => .error ⟨.ERR_NOTFOUND, "store not found"⟩
  | some st =>
    if tolerateClosed = false ∧ st.isOpen = false then
      .error ⟨.ERR_NOTFOUND, "store not open"⟩
    else .ok st

/-- Modelled from the spec: `ReplManager::changeReplSource(storeId, ip,
port, sourceStoreId)` sets the shard's source descriptor; it may fail
(abstract oracle), in which case the descriptor table is unchanged. -/
def changeReplSource (mgr : ReplMgr) (storeId : Nat) (ip : Buf)
    (port : Nat) (srcStoreId : Nat) : Except Status ReplMgr :=
  match mgr.changeFail storeId with
  | some e => .error e
  | none =>
    .ok { mgr with sources := mgr.sources.set storeId ⟨ip, port, srcStoreId⟩ }

/-- Observable effects a command issues against shared state, in order. -/
inductive Event where
  | lockAcquired (storeId : Nat) (mode : LockMode)
  | txnCreated (storeId : Nat)
  | setKVCalled (key value : Buf)
  | delKVCalled (key : Buf)
  | committed (storeId : Nat)
  | applyDelegated (storeId : Nat) (sessId : Nat)
      (groups : List (Nat × List ReplLog))
deriving DecidableEq

/-- Command outcome: a reply, an error status, a `LOG(FATAL)` process
abort, or undefined behaviour (out-of-bounds vector indexing). -/
inductive Outcome (α : Type) where
  | ok (v : α)
  | err (e : Status)
  | fatal (msg : String)
  | undef
deriving DecidableEq

/-!
## PullBinlogsCommand (`pullbinlogs storeId startBinlogId`)
-/

/-- Modelled from the spec: `Transaction::createBinlogCursor(binlogPos)`
— an ordered iterator over the shard's committed log records starting at
the given sequence position (every record whose transaction id is at or
after the position, in log order). -/
def binlogFrom (st : Store) (pos : Nat) : List ReplLog :=
  st.binlog.filter (fun r => decide (pos ≤ r.key.txnId))

/-- The record-collection loop of `PullBinlogsCommand::run` (repl.cpp
lines 226–245).  `currId` starts as the `TXNID_UNINITED` sentinel
(modelled as `none`); the loop drains the cursor, stopping early only
once at least 1000 records are collected *and* the next record starts a
different transaction. -/
def collectLoop : List ReplLog → List ReplLog → Option Nat → List ReplLog
  | [], binlogs, _ => binlogs
  | e :: rest, binlogs, currId =>
    let tmpId := e.key.txnId
    let curr := currId.getD tmpId
    if 1000 ≤ binlogs.length ∧ tmpId ≠ curr then binlogs
    else collectLoop rest (binlogs ++ [e]) (some tmpId)

/-- The structured content of a pullbinlogs reply: the next binlog
position followed by the flattened encoded (key, value) pairs (the
source serializes this with the RESP helpers of the excluded
`command.h`). -/
structure PullResp where
  nextPos : Nat
  records : List (Buf × Buf)
deriving DecidableEq

/-- `PullBinlogsCommand::run` (repl.cpp lines 189–262): parse storeId
and position, range-check the shard id, locate the shard under an IS
lock, open a read transaction and a binlog cursor, collect a
transaction-aligned batch, and reply with the next position plus the
encoded records (or the input position and an empty list when nothing
was collected). -/
def pullRun (svr : Server) (args : List Buf) :
    Outcome PullResp × Server × List Event :=
  match args.get? 1 with
  | none => (.undef, svr, [])
  | some a1 =>
  match stoul a1 with
  | .error e => (.err e, svr, [])
  | .ok storeId =>
  match args.get? 2 with
  | none => (.undef, svr, [])
  | some a2 =>
  match stoul a2 with
  | .error e => (.err e, svr, [])
  | .ok binlogPos =>
  if svr.stores.length ≤ storeId then
    (.err ⟨.ERR_PARSEOPT, "invalid storeId"⟩, svr, [])
  else
    match getDb svr storeId false with
    | .error e => (.err e, svr, [])
    | .ok st =>
      match st.createTxnFail with
      | some e => (.err e, svr, [Event.lockAcquired storeId .LOCK_IS])
      | none =>
        let evs := [Event.lockAcquired storeId .LOCK_IS,
                    Event.txnCreated storeId]
        let binlogs := collectLoop (binlogFrom st binlogPos) [] none
        let res : Outcome PullResp :=
          match binlogs.getLast? with
          | none => .ok ⟨binlogPos, []⟩
          | some last => .ok ⟨last.key.txnId + 1, binlogs.map ReplLog.encode⟩
        (res, svr, evs)

/-!
## RestoreBinlogCommand (`restorebinlog storeId k1 v1 k2 v2 ...`)
-/

/-- The decode loop of `RestoreBinlogCommand::run` (repl.cpp lines
304–310): `for (i = 2; i < args.size(); i += 2)` decoding
`(args[i], args[i+1])`.  The argument is `args.drop 2`; a trailing
unpaired key would make the loop read `args[i+1]` past the end of the
vector, which is undefined behaviour, modelled as `none` (unreachable
here because the command checks the argument count is even first). -/
def restoreDecodeLoop : List Buf → Option (Except Status (List ReplLog))
  | [] => some (.ok [])
  | [_] => none
  | k :: v :: rest =>
    match ReplLog.decode k v with
    | .error e => some (.error e)
    | .ok log =>
      match restoreDecodeLoop rest with
      | none => none
      | some (.error e) => some (.error e)
      | some (.ok logs) => some (.ok (log :: logs))

/-- The replay loop of `RestoreBinlogCommand::run` (repl.cpp lines
331–370): for each record decode its target key, then SET → `setKV`
with timestamp 0, DELETE → `delKV` with timestamp 0, anything else →
parameter error "invalid replop".  Returns the final uncommitted
transaction (or the first error) plus the write events issued. -/
def restoreReplayLoop : List ReplLog → Txn → Except Status Txn × List Event
  | [], txn => (.ok txn, [])
  | kv :: rest, txn =>
    match RecordKey.decode kv.value.opKey with
    | .error e => (.error e, [])
    | .ok rk =>
      match kv.value.op with
      | .REPL_OP_SET =>
        match RecordValue.decode kv.value.opValue with
        | .error e => (.error e, [])
        | .ok rv =>
          let txn' := txn.setKV (RecordKey.encode rk) (RecordValue.encode rv) 0
          let next := restoreReplayLoop rest txn'
          (next.1, Event.setKVCalled (RecordKey.encode rk)
                     (RecordValue.encode rv) :: next.2)
      | .REPL_OP_DEL =>
        let txn' := txn.delKV (RecordKey.encode rk) 0
        let next := restoreReplayLoop rest txn'
        (next.1, Event.delKVCalled (RecordKey.encode rk) :: next.2)
      | _ => (.error ⟨.ERR_PARSEOPT, "invalid replop"⟩, [])

/-- `RestoreBinlogCommand::run` (repl.cpp lines 288–376): reject an odd
argument count, parse and range-check the shard id, decode all (key,
value) pairs, require a single transaction id, then lock the shard IX,
open one local transaction, replay every record, and commit.  The
`logs.front()` call on an empty list is undefined behaviour (prevented
by the dispatcher's arity ≥ 4 check), modelled as `undef`. -/
def restoreRun (svr : Server) (args : List Buf) :
    Outcome String × Server × List Event :=
  if args.length % 2 ≠ 0 then
    (.err ⟨.ERR_PARSEOPT, "invalid param len"⟩, svr, [])
  else
  match args.get? 1 with
  | none => (.undef, svr, [])
  | some a1 =>
  match stoul a1 with
  | .error e => (.err e, svr, [])
  | .ok storeId =>
  if svr.stores.length ≤ storeId then
    (.err ⟨.ERR_PARSEOPT, "invalid storeid"⟩, svr, [])
  else
  match restoreDecodeLoop (args.drop 2) with
  | none => (.undef, svr, [])
  | some (.error e) => (.err e, svr, [])
  | some (.ok logs) =>
  match logs.head? with
  | none => (.undef, svr, [])
  | some front =>
  if logs.any (fun kv => kv.key.txnId != front.key.txnId) then
    (.err ⟨.ERR_PARSEOPT, "txn id not all the same"⟩, svr, [])
  else
  match getDb svr storeId false with
  | .error e => (.err e, svr, [])
  | .ok st =>
    match st.createTxnFail with
    | some e => (.err e, svr, [Event.lockAcquired storeId .LOCK_IX])
    | none =>
      let ev0 := [Event.lockAcquired storeId .LOCK_IX,
                  Event.txnCreated storeId]
      let rl := restoreReplayLoop logs ⟨[]⟩
      match rl.1 with
      | .error e => (.err e, svr, ev0 ++ rl.2)
      | .ok txn =>
        match st.commitFail with
        | some e => (.err e, svr, ev0 ++ rl.2)
        | none =>
          let st' := { st with kv := txn.pending.foldl applyWrite st.kv }
          (.ok "OK", { svr with stores := svr.stores.set storeId st' },
           ev0 ++ rl.2 ++ [Event.committed storeId])

/-!
## ApplyBinlogsCommand (`applybinlogs storeId [k0 v0] [k1 v1] ...`)
-/

/-- Ordered insertion mirroring `std::map<uint64_t, std::list<ReplLog>>`
with `binlogGroup[txnId].emplace_back(...)`: entries are kept in
ascending key order, and a repeated key appends to that entry's list. -/
def mapInsert (m : List (Nat × List ReplLog)) (k : Nat) (v : ReplLog) :
    List (Nat × List ReplLog) :=
  match m with
  | [] => [(k, [v])]
  | (k', l) :: rest =>
    if k < k' then (k, [v]) :: (k', l) :: rest
    else if k = k' then (k', l ++ [v]) :: rest
    else (k', l) :: mapInsert rest k v

/-- The decode/group loop of `ApplyBinlogsCommand::run` (repl.cpp lines
422–433): `for (i = 2; i < args.size(); i += 2)` decoding
`(args[i], args[i+1])` and appending into the txn-keyed map.  The
argument is `args.drop 2`.  There is no odd-length check: a trailing
unpaired key makes the loop read `args[i+1]` one past the end of the
vector — undefined behaviour, modelled as `none`. -/
def applyGroupLoop : List Buf → List (Nat × List ReplLog) →
    Option (Except Status (List (Nat × List ReplLog)))
  | [], m => some (.ok m)
  | [_], _ => none
  | k :: v :: rest, m =>
    match ReplLog.decode k v with
    | .error e => some (.error e)
    | .ok log => applyGroupLoop rest (mapInsert m log.key.txnId log)

/-- The framing-validation loop of `ApplyBinlogsCommand::run` (repl.cpp
lines 434–450): for each group in map order, the first record must have
the `REPL_GROUP_START` bit and the last the `REPL_GROUP_END` bit;
a violation is `LOG(FATAL)` (returned as `some message`); `none` means
every group passed.  An empty group would fail the source's
`INVARIANT(logList.second.size() >= 1)`, also fatal. -/
def checkGroups : List (Nat × List ReplLog) → Option String
  | [] => none
  | (k, l) :: rest =>
    match l.head?, l.getLast? with
    | some first, some last =>
      if first.key.flag &&& REPL_GROUP_START = 0 then
        some ("txnId:" ++ toString k ++ " first record not marked begin")
      else if last.key.flag &&& REPL_GROUP_END = 0 then
        some ("txnId:" ++ toString k ++ " last record not marked end")
      else checkGroups rest
    | _, _ => some "invariant violated: empty binlog group"

/-- `ApplyBinlogsCommand::run` (repl.cpp lines 405–468): parse and
range-check the shard id, decode and group the records by transaction
id, validate group framing (fatal on violation), then lock the shard IX
and delegate the grouped batches to
`ReplManager::applyBinlogs(storeId, sess->id(), binlogGroup)`. -/
def applyRun (svr : Server) (sessId : Nat) (args : List Buf) :
    Outcome String × Server × List Event :=
  match args.get? 1 with
  | none => (.undef, svr, [])
  | some a1 =>
  match stoul a1 with
  | .error e => (.err e, svr, [])
  | .ok storeId =>
  if svr.stores.length ≤ storeId then
    (.err ⟨.ERR_PARSEOPT, "invalid storeId"⟩, svr, [])
  else
  match applyGroupLoop (args.drop 2) [] with
  | none => (.undef, svr, [])
  | some (.error e) => (.err e, svr, [])
  | some (.ok binlogGroup) =>
    match checkGroups binlogGroup with
    | some msg => (.fatal msg, svr, [])
    | none =>
      match getDb svr storeId false with
      | .error e => (.err e, svr, [])
      | .ok _st =>
        let evs := [Event.lockAcquired storeId .LOCK_IX,
                    Event.applyDelegated storeId sessId binlogGroup]
        let res : Outcome String :=
          match svr.replMgr.applyFail with
          | some e => .err e
          | none => .ok "OK"
        (res, svr, evs)

/-- The arrival-order decoding of the flat (key, value) list, used to
state what "arrival order" means for the grouped batches: the records
in the order the loop of lines 422–433 decodes them. -/
def decodePairs : List Buf → Option (Except Status (List ReplLog))
  | [] => some (.ok [])
  | [_] => none
  | k :: v :: rest =>
    match ReplLog.decode k v with
    | .error e => some (.error e)
    | .ok log =>
      match decodePairs rest with
      | none => none
      | some (.error e) => some (.error e)
      | some (.ok logs) => some (.ok (log :: logs))

/-- The records grouped under key `k` (empty when `k` is absent). -/
def groupGet (m : List (Nat × List ReplLog)) (k : Nat) : List ReplLog :=
  (m.lookup k).getD []

/-- Transaction ids in order of first appearance in the decoded input —
the "arrival order" of the batches' first records. -/
def firstAppearances : List Nat → List Nat
  | [] => []
  | t :: rest =>
    if t ∈ rest then
      if (firstAppearances rest).contains t then firstAppearances rest
      else t :: firstAppearances rest
    else t :: firstAppearances rest

/-!
## SlaveofCommand (`slaveof ...`)
-/

/-- The all-shards loop shared by `SlaveofCommand::runSlaveofSomeOne`
(repl.cpp lines 491–506, with `srcOf i = i`) and
`SlaveofCommand::runSlaveofNoOne` (lines 567–582, with `ip = []`,
`port = 0`, `srcOf i = 0`): for each shard id in ascending order,
locate it tolerantly under an X lock, skip it when not open, otherwise
change its replication source, returning the first error. -/
def slaveofAllLoop (count : Nat) (ip : Buf) (port : Nat)
    (srcOf : Nat → Nat) (svr : Server) (i : Nat) :
    Outcome String × Server :=
  if i < count then
    match getDb svr i true with
    | .error e => (.err e, svr)
    | .ok st =>
      if st.isOpen = false then slaveofAllLoop count ip port srcOf svr (i + 1)
      else
        match changeReplSource svr.replMgr i ip port (srcOf i) with
        | .error e => (.err e, svr)
        | .ok mgr =>
          slaveofAllLoop count ip port srcOf { svr with replMgr := mgr } (i + 1)
  else (.ok "OK", svr)
termination_by count - i

/-- `SlaveofCommand::runSlaveofSomeOne` (repl.cpp lines 477–536): parse
ip and port; with 3 arguments attach every shard to (ip, port, same
shard id); with 5 arguments attach one shard to an explicit source
shard; anything else is a packet error. -/
def runSlaveofSomeOne (svr : Server) (args : List Buf) :
    Outcome String × Server :=
  match args.get? 1 with
  | none => (.undef, svr)
  | some ip =>
  match args.get? 2 with
  | none => (.undef, svr)
  | some a2 =>
  match stoul a2 with
  | .error e => (.err ⟨.ERR_PARSEPKT, e.msg⟩, svr)
  | .ok port =>
  if args.length = 3 then
    slaveofAllLoop svr.stores.length ip port (fun i => i) svr 0
  else if args.length = 5 then
    match args.get? 3, args.get? 4 with
    | some a3, some a4 =>
      match stoul a3, stoul a4 with
      | .ok storeId, .ok sourceStoreId =>
        if svr.stores.length ≤ storeId ∨ svr.stores.length ≤ sourceStoreId then
          (.err ⟨.ERR_PARSEPKT, "invalid storeId"⟩, svr)
        else
          match getDb svr storeId false with
          | .error e => (.err e, svr)
          | .ok _ =>
            match changeReplSource svr.replMgr storeId ip port sourceStoreId with
            | .error e => (.err e, svr)
            | .ok mgr => (.ok "OK", { svr with replMgr := mgr })
      | .error e, _ => (.err ⟨.ERR_PARSEPKT, e.msg⟩, svr)
      | _, .error e => (.err ⟨.ERR_PARSEPKT, e.msg⟩, svr)
    | _, _ => (.undef, svr)
  else (.err ⟨.ERR_PARSEPKT, "bad argument num"⟩, svr)

/-- `SlaveofCommand::runSlaveofNoOne` (repl.cpp lines 538–584): with 4
arguments detach one shard (after a range check and a non-tolerant X
lock); otherwise detach every shard via the tolerant all-shards loop.
Detaching sets the source descriptor to (host="", port=0, srcShard=0). -/
def runSlaveofNoOne (svr : Server) (args : List Buf) :
    Outcome String × Server :=
  if args.length = 4 then
    match args.get? 3 with
    | none => (.undef, svr)
    | some a3 =>
    match stoul a3 with
    | .error e => (.err ⟨.ERR_PARSEPKT, e.msg⟩, svr)
    | .ok storeId =>
    if svr.stores.length ≤ storeId then
      (.err ⟨.ERR_PARSEPKT, "invalid storeId"⟩, svr)
    else
      match getDb svr storeId false with
      | .error e => (.err e, svr)
      | .ok _ =>
        match changeReplSource svr.replMgr storeId [] 0 0 with
        | .error e => (.err e, svr)
        | .ok mgr => (.ok "OK", { svr with replMgr := mgr })
  else slaveofAllLoop svr.stores.length [] 0 (fun _ => 0) svr 0

/-- Lower-case an ASCII byte string (`toLower`). -/
def bufToLower (b : Buf) : Buf :=
  b.map (fun c => if 65 ≤ c ∧ c ≤ 90 then c + 32 else c)

/-- `SlaveofCommand::run` (repl.cpp lines 590–598): dispatch between the
"no one" (detach) and host/port (attach) forms. -/
def slaveofRun (svr : Server) (args : List Buf) :
    Outcome String × Server :=
  match args.get? 1, args.get? 2 with
  | some a1, some a2 =>
    if bufToLower a1 = [110, 111] ∧ bufToLower a2 = [111, 110, 101] then
      runSlaveofNoOne svr args
    else runSlaveofSomeOne svr args
  | _, _ => (.undef, svr)

/-- Whether shard `j` exists and is open. -/
def storeOpenB (svr : Server) (j : Nat) : Bool :=
  match svr.stores.get? j with
  | some st => st.isOpen
  | none => false

/-- Events that touch the shard's key/value contents (writes, commits,
or delegated application of binlog batches). -/
def Event.isWrite : Event → Bool
  | .setKVCalled _ _ => true
  | .delKVCalled _ => true
  | .committed _ => true
  | .applyDelegated _ _ _ => true
  | _ => false

/-!
## Helper lemmas
-/

theorem getDb_strict_ok {svr : Server} {sId : Nat} {st : Store}
    (h : getDb svr sId false = .ok st) :
    svr.stores.get? sId = some st ∧ st.isOpen = true := by
  unfold getDb at h
  cases hg : svr.stores.get? sId <;> rw [hg] at h
  · exact absurd h (by simp)
  · rename_i st'
    by_cases ho : st'.isOpen = false
    · simp [ho] at h
    · simp [ho] at h
      rw [← h]
      exact ⟨rfl, by simpa using ho⟩

theorem get?_some_lt {l : List Store} {i : Nat} {st : Store}
    (h : l.get? i = some st) : i < l.length := by
  by_contra hge
  rw [List.get?_eq_none.mpr (Nat.le_of_not_lt hge)] at h
  exact absurd h (by simp)

/-- Reduction of `pullRun` on a well-formed request against a valid,
open shard whose transaction creation succeeds. -/
theorem pullRun_valid {svr : Server} {args : List Buf} {a1 a2 : Buf}
    {sId pos : Nat} {st : Store}
    (h1 : args.get? 1 = some a1) (hs1 : stoul a1 = .ok sId)
    (h2 : args.get? 2 = some a2) (hs2 : stoul a2 = .ok pos)
    (hdb : getDb svr sId false = .ok st)
    (htx : st.createTxnFail = none) :
    pullRun svr args =
      ((match (collectLoop (binlogFrom st pos) [] none).getLast? with
        | none => Outcome.ok ⟨pos, []⟩
        | some last =>
          Outcome.ok ⟨last.key.txnId + 1,
            (collectLoop (binlogFrom st pos) [] none).map ReplLog.encode⟩),
       svr, [Event.lockAcquired sId .LOCK_IS, Event.txnCreated sId]) := by
  have hlt : sId < svr.stores.length := get?_some_lt (getDb_strict_ok hdb).1
  unfold pullRun
  simp only [h1, hs1, h2, hs2]
  rw [if_neg (by omega)]
  simp only [hdb, htx]

/-- C9: for every pullbinlogs call, on success or failure, the shard's
key/value storage state is unchanged: the server state is returned
untouched, and the event trace contains no write, commit, or delegated
application — the transaction pull opens is used only for its binlog
cursor and never committed, and no setKV/delKV is issued. -/
theorem pull_read_only (svr : Server) (args : List Buf) :
    (pullRun svr args).2.1 = svr ∧
    ∀ e ∈ (pullRun svr args).2.2, Event.isWrite e = false := by
  unfold pullRun
  repeat' split
  all_goals simp [Event.isWrite]

/-- C5: pulling on a valid, open shard at a position past every
committed record answers with the same input position and an empty
record list, leaves the server unchanged, and a repeated identical
request returns the very same reply. -/
theorem pull_empty_tail_idempotent {svr : Server} {args : List Buf}
    {a1 a2 : Buf} {sId pos : Nat} {st : Store}
    (h1 : args.get? 1 = some a1) (hs1 : stoul a1 = .ok sId)
    (h2 : args.get? 2 = some a2) (hs2 : stoul a2 = .ok pos)
    (hdb : getDb svr sId false = .ok st)
    (htx : st.createTxnFail = none)
    (hempty : ∀ r ∈ st.binlog, r.key.txnId < pos) :
    (pullRun svr args).1 = .ok ⟨pos, []⟩ ∧
    (pullRun svr args).2.1 = svr ∧
    (pullRun ((pullRun svr args).2.1) args).1 = (pullRun svr args).1 := by
  have hstream : binlogFrom st pos = [] := by
    rw [binlogFrom, List.filter_eq_nil_iff]
    intro r hr
    simpa using Nat.not_le.mpr (hempty r hr)
  have hrun := pullRun_valid h1 hs1 h2 hs2 hdb htx
  rw [hstream] at hrun
  simp only [collectLoop] at hrun
  rw [hrun]
  simp [hrun]

/-- C6: a pullbinlogs request on a valid, open shard that collects at
least one record replies with the last collected record's transaction
id plus one as the next position, together with the encoded (key,
value) pairs of all collected records in original log order. -/
theorem pull_next_position {svr : Server} {args : List Buf}
    {a1 a2 : Buf} {sId pos : Nat} {st : Store} {lastR : ReplLog}
    (h1 : args.get? 1 = some a1) (hs1 : stoul a1 = .ok sId)
    (h2 : args.get? 2 = some a2) (hs2 : stoul a2 = .ok pos)
    (hdb : getDb svr sId false = .ok st)
    (htx : st.createTxnFail = none)
    (hlast : (collectLoop (binlogFrom st pos) [] none).getLast? = some lastR) :
    (pullRun svr args).1 =
      .ok ⟨lastR.key.txnId + 1,
        (collectLoop (binlogFrom st pos) [] none).map ReplLog.encode⟩ := by
  have hrun := pullRun_valid h1 hs1 h2 hs2 hdb htx
  rw [hlast] at hrun
  rw [hrun]

/-!
## Transaction alignment of the pull batch (C1)
-/

/-- Transaction id of the record at index `i` (0 when out of range). -/
def txnAt (l : List ReplLog) (i : Nat) : Nat :=
  match l.get? i with
  | some r => r.key.txnId
  | none => 0

/-- The records of each transaction are contiguous in the stream: if two
positions carry the same transaction id, so does every position between
them.  This is the binlog-order invariant of the cursor's stream
(records are totally ordered by transaction id). -/
def TxnGrouped (l : List ReplLog) : Prop :=
  ∀ j, j < l.length → ∀ i, i ≤ j → ∀ m, m ≤ j → i ≤ m →
    txnAt l i = txnAt l j → txnAt l m = txnAt l i

instance (l : List ReplLog) : Decidable (TxnGrouped l) := by
  unfold TxnGrouped
  infer_instance

/-- Shape of the pull collection loop: it returns its accumulator
extended by a leading slice of the stream, and stops only at stream
exhaustion or, when at least 1000 records have been accumulated, at a
record opening a different transaction than the last accumulated one. -/
theorem collectLoop_shape (stream : List ReplLog) :
    ∀ (binlogs : List ReplLog) (currId : Option Nat),
    (binlogs = [] ∧ currId = none ∨
      ∃ e', binlogs.getLast? = some e' ∧ currId = some e'.key.txnId) →
    ∃ tk, collectLoop stream binlogs currId = binlogs ++ tk ∧
      stream.take tk.length = tk ∧
      (stream.drop tk.length = [] ∨
        (1000 ≤ (binlogs ++ tk).length ∧
          ∃ b e', (stream.drop tk.length).head? = some b ∧
            (binlogs ++ tk).getLast? = some e' ∧
            b.key.txnId ≠ e'.key.txnId)) := by
  induction stream with
  | nil =>
    intro binlogs currId _
    exact ⟨[], by simp [collectLoop]⟩
  | cons e rest ih =>
    intro binlogs currId hinv
    simp only [collectLoop]
    by_cases hstop : 1000 ≤ binlogs.length ∧ e.key.txnId ≠ currId.getD e.key.txnId
    · rw [if_pos hstop]
      rcases hinv with ⟨hb, _⟩ | ⟨e', hlast, hcurr⟩
      · rw [hb] at hstop
        exact absurd hstop.1 (by simp)
      · refine ⟨[], by simp, by simp, Or.inr ⟨by simpa using hstop.1, e, e', ?_⟩⟩
        refine ⟨by simp, by simpa using hlast, ?_⟩
        have := hstop.2
        rw [hcurr] at this
        simpa using this
    · rw [if_neg hstop]
      have hinv' : binlogs ++ [e] = [] ∧ (some e.key.txnId : Option Nat) = none ∨
          ∃ e', (binlogs ++ [e]).getLast? = some e' ∧
            (some e.key.txnId : Option Nat) = some e'.key.txnId :=
        Or.inr ⟨e, List.getLast?_concat binlogs, rfl⟩
      obtain ⟨tk, hres, htake, hstop'⟩ := ih (binlogs ++ [e]) (some e.key.txnId) hinv'
      refine ⟨e :: tk, ?_, ?_, ?_⟩
      · rw [hres, List.append_assoc]
        rfl
      · simpa using htake
      · simpa [List.append_assoc] using hstop'

/-- A leading slice ending at a transaction boundary never truncates a
transaction relative to the full stream: any transaction with a record
in the slice has all of its records there. -/
theorem boundary_no_truncation (p rest : List ReplLog)
    (hg : TxnGrouped (p ++ rest))
    (hb : rest = [] ∨ ∃ b e', rest.head? = some b ∧ p.getLast? = some e' ∧
      b.key.txnId ≠ e'.key.txnId) :
    ∀ t, (∃ r ∈ p, r.key.txnId = t) →
      p.filter (fun r => r.key.txnId == t) =
        (p ++ rest).filter (fun r => r.key.txnId == t) := by
  intro t ⟨r, hrp, hrt⟩
  rcases hb with rfl | ⟨b, e', hbh, hel, hne⟩
  · simp
  · rw [List.filter_append]
    suffices h : rest.filter (fun r => r.key.txnId == t) = [] by simp [h]
    rw [List.filter_eq_nil_iff]
    intro r' hr'
    simp only [beq_iff_eq]
    intro hrt'
    obtain ⟨i, hi⟩ := List.mem_iff_get?.mp hrp
    obtain ⟨i', hi'⟩ := List.mem_iff_get?.mp hr'
    have hip : i < p.length := by
      by_contra hge
      rw [List.get?_eq_none.mpr (Nat.le_of_not_lt hge)] at hi
      exact absurd hi (by simp)
    have hir : i' < rest.length := by
      by_contra hge
      rw [List.get?_eq_none.mpr (Nat.le_of_not_lt hge)] at hi'
      exact absurd hi' (by simp)
    have hpne : 0 < p.length := Nat.lt_of_le_of_lt (Nat.zero_le i) hip
    have hi2 : p[i]? = some r := by
      rw [← List.get?_eq_getElem?]
      exact hi
    have hi2' : rest[i']? = some r' := by
      rw [← List.get?_eq_getElem?]
      exact hi'
    have hti : txnAt (p ++ rest) i = t := by
      simp [txnAt, List.get?_eq_getElem?, List.getElem?_append_left hip,
        hi2, hrt]
    have htk : txnAt (p ++ rest) (p.length + i') = t := by
      simp [txnAt, List.get?_eq_getElem?,
        List.getElem?_append_right (Nat.le_add_right p.length i'),
        Nat.add_sub_cancel_left, hi2', hrt']
    have hklt : p.length + i' < (p ++ rest).length := by
      rw [List.length_append]
      omega
    have hpl : p[p.length - 1]? = some e' := by
      rw [← List.getLast?_eq_getElem?]
      exact hel
    have hlastIdx : txnAt (p ++ rest) (p.length - 1) = e'.key.txnId := by
      simp [txnAt, List.get?_eq_getElem?,
        List.getElem?_append_left (show p.length - 1 < p.length by omega), hpl]
    have hr0 : rest[0]? = some b := by
      rw [← List.get?_eq_getElem?, List.get?_zero]
      exact hbh
    have hheadIdx : txnAt (p ++ rest) p.length = b.key.txnId := by
      simp [txnAt, List.get?_eq_getElem?,
        List.getElem?_append_right (Nat.le_refl p.length),
        Nat.sub_self, hr0]
    have h1 := hg (p.length + i') hklt i (by omega) (p.length - 1)
      (by omega) (by omega) (by rw [hti, htk])
    have h2 := hg (p.length + i') hklt i (by omega) p.length
      (by omega) (by omega) (by rw [hti, htk])
    rw [hlastIdx, hti] at h1
    rw [hheadIdx, hti] at h2
    exact hne (h2.trans h1.symm)

/-- C1: a pullbinlogs request on a valid, open shard returns a leading
slice of the cursor's stream that, grouped by transaction id, contains
only complete transaction groups — any transaction with a record in the
batch has every record the cursor would produce — and the collection
loop stops only at cursor exhaustion or at a transaction boundary after
at least 1000 collected records; the reply's record list is exactly the
collected records, encoded, in order. -/
theorem pull_batch_txn_alignment {svr : Server} {args : List Buf}
    {a1 a2 : Buf} {sId pos : Nat} {st : Store}
    (h1 : args.get? 1 = some a1) (hs1 : stoul a1 = .ok sId)
    (h2 : args.get? 2 = some a2) (hs2 : stoul a2 = .ok pos)
    (hdb : getDb svr sId false = .ok st)
    (htx : st.createTxnFail = none)
    (hg : TxnGrouped (binlogFrom st pos)) :
    (binlogFrom st pos).take (collectLoop (binlogFrom st pos) [] none).length
        = collectLoop (binlogFrom st pos) [] none ∧
    ((binlogFrom st pos).drop
        (collectLoop (binlogFrom st pos) [] none).length = [] ∨
      (1000 ≤ (collectLoop (binlogFrom st pos) [] none).length ∧
        ∃ b e, ((binlogFrom st pos).drop
            (collectLoop (binlogFrom st pos) [] none).length).head? = some b ∧
          (collectLoop (binlogFrom st pos) [] none).getLast? = some e ∧
          b.key.txnId ≠ e.key.txnId)) ∧
    (∀ t, (∃ r ∈ collectLoop (binlogFrom st pos) [] none, r.key.txnId = t) →
      (collectLoop (binlogFrom st pos) [] none).filter
          (fun r => r.key.txnId == t)
        = (binlogFrom st pos).filter (fun r => r.key.txnId == t)) ∧
    ∃ resp, (pullRun svr args).1 = .ok resp ∧
      resp.records =
        (collectLoop (binlogFrom st pos) [] none).map ReplLog.encode := by
  obtain ⟨tk, hres, htake, hstop⟩ :=
    collectLoop_shape (binlogFrom st pos) [] none (Or.inl ⟨rfl, rfl⟩)
  simp only [List.nil_append] at hres hstop
  rw [hres]
  have hsplit := List.take_append_drop tk.length (binlogFrom st pos)
  rw [htake] at hsplit
  refine ⟨htake, hstop, ?_, ?_⟩
  · intro t ht
    have hg' : TxnGrouped (tk ++ (binlogFrom st pos).drop tk.length) := by
      rw [hsplit]
      exact hg
    have hb : (binlogFrom st pos).drop tk.length = [] ∨
        ∃ b e', ((binlogFrom st pos).drop tk.length).head? = some b ∧
          tk.getLast? = some e' ∧ b.key.txnId ≠ e'.key.txnId := by
      rcases hstop with h | ⟨_, b, e', hb, he, hne⟩
      · exact Or.inl h
      · exact Or.inr ⟨b, e', hb, he, hne⟩
    have := boundary_no_truncation tk ((binlogFrom st pos).drop tk.length)
      hg' hb t ht
    rw [hsplit] at this
    exact this
  · have hrun := pullRun_valid h1 hs1 h2 hs2 hdb htx
    rw [hres] at hrun
    cases hlast : tk.getLast? with
    | none =>
      rw [hlast] at hrun
      rw [List.getLast?_eq_none_iff] at hlast
      refine ⟨⟨pos, []⟩, by rw [hrun], ?_⟩
      simp [hlast]
    | some last =>
      rw [hlast] at hrun
      exact ⟨⟨last.key.txnId + 1, tk.map ReplLog.encode⟩, by rw [hrun], rfl⟩

/-!
## Concrete fixtures (the spec's example scenario: a shard whose
transaction 10 has 3 records and transaction 11 has 2)
-/

def exR1 : ReplLog := ⟨⟨10, 1⟩, ⟨.REPL_OP_SET, [1], [2]⟩⟩

def exR2 : ReplLog := ⟨⟨10, 0⟩, ⟨.REPL_OP_SET, [3], [4]⟩⟩

def exR3 : ReplLog := ⟨⟨10, 2⟩, ⟨.REPL_OP_DEL, [1], []⟩⟩

def exR4 : ReplLog := ⟨⟨11, 3⟩, ⟨.REPL_OP_SET, [5], [6]⟩⟩

def exR5 : ReplLog := ⟨⟨11, 2⟩, ⟨.REPL_OP_DEL, [5], []⟩⟩

def exStore : Store := ⟨true, [], [exR1, exR2, exR3, exR4, exR5], none, none⟩

def exServer : Server := ⟨[exStore], ⟨[⟨[], 0, 0⟩], fun _ => none, none⟩⟩

/-- `pullbinlogs 0 10` (command word opaque; "0" = [48], "10" = [49,48]). -/
def exPullArgs : List Buf := [[112], [48], [49, 48]]

/-- `pullbinlogs 0 12` — a position past the last committed record. -/
def exPullArgs12 : List Buf := [[112], [48], [49, 50]]

/-- Witness for C1 at the example shard: the hypotheses hold and the
transaction-10 group of the returned batch equals the full stream's
transaction-10 group. -/
theorem pull_batch_txn_alignment_witness :
    TxnGrouped (binlogFrom exStore 10) ∧
    (collectLoop (binlogFrom exStore 10) [] none).filter
        (fun r => r.key.txnId == 10)
      = (binlogFrom exStore 10).filter (fun r => r.key.txnId == 10) :=
  ⟨by decide,
   (@pull_batch_txn_alignment exServer exPullArgs [48] [49, 48] 0 10 exStore
      (by decide) (by decide) (by decide) (by decide) (by decide) (by decide)
      (by decide)).2.2.1 10 ⟨exR1, by decide, by decide⟩⟩

/-- Witness for C5 at the example shard: pulling at position 12 (past
transaction 11) answers position 12 with no records, repeatably. -/
theorem pull_empty_tail_idempotent_witness :
    (pullRun exServer exPullArgs12).1 = .ok ⟨12, []⟩ ∧
    (pullRun exServer exPullArgs12).2.1 = exServer ∧
    (pullRun ((pullRun exServer exPullArgs12).2.1) exPullArgs12).1 =
      (pullRun exServer exPullArgs12).1 :=
  @pull_empty_tail_idempotent exServer exPullArgs12 [48] [49, 50] 0 12 exStore
    (by decide) (by decide) (by decide) (by decide) (by decide) (by decide)
    (by decide)

/-- Witness for C6 at the example shard: pulling at position 10 returns
next position 12 (= 11 + 1) and all five encoded records in order. -/
theorem pull_next_position_witness :
    (pullRun exServer exPullArgs).1 =
      .ok ⟨exR5.key.txnId + 1,
        (collectLoop (binlogFrom exStore 10) [] none).map ReplLog.encode⟩ :=
  @pull_next_position exServer exPullArgs [48] [49, 48] 0 10 exStore exR5
    (by decide) (by decide) (by decide) (by decide) (by decide) (by decide)
    (by decide)

/-!
## Restore protocol claims (C4, C10)
-/

/-- C4: a restorebinlog request whose decoded records carry more than
one distinct transaction id is rejected with the parameter error
"txn id not all the same", leaving the server untouched, before any
lock is taken, any transaction opened, or anything written or
committed (the event trace is empty). -/
theorem restore_mixed_txn_rejected {svr : Server} {args : List Buf}
    {a1 : Buf} {sId : Nat} {logs : List ReplLog} {front : ReplLog}
    (hev : args.length % 2 = 0)
    (h1 : args.get? 1 = some a1) (hs1 : stoul a1 = .ok sId)
    (hlt : sId < svr.stores.length)
    (hdec : restoreDecodeLoop (args.drop 2) = some (.ok logs))
    (hhd : logs.head? = some front)
    (hmix : ∃ kv ∈ logs, kv.key.txnId ≠ front.key.txnId) :
    restoreRun svr args =
      (.err ⟨.ERR_PARSEOPT, "txn id not all the same"⟩, svr, []) := by
  have hany : logs.any (fun kv => kv.key.txnId != front.key.txnId) = true := by
    obtain ⟨kv, hm, hne⟩ := hmix
    rw [List.any_eq_true]
    exact ⟨kv, hm, by simpa using hne⟩
  unfold restoreRun
  rw [if_neg (by omega)]
  simp only [h1, hs1]
  rw [if_neg (by omega)]
  simp [hdec, hhd, hany]

/-- The restore replay loop fails with the parameter error
"invalid replop" whenever some record's operation is neither SET nor
DELETE (every record-key/value decode in this model succeeds). -/
theorem restoreReplayLoop_bad_op (logs : List ReplLog) :
    ∀ (txn : Txn),
    (∃ kv ∈ logs, kv.value.op ≠ .REPL_OP_SET ∧ kv.value.op ≠ .REPL_OP_DEL) →
    (restoreReplayLoop logs txn).1 =
      .error ⟨.ERR_PARSEOPT, "invalid replop"⟩ := by
  induction logs with
  | nil =>
    intro txn h
    simp at h
  | cons kv rest ih =>
    intro txn ⟨bad, hm, hop⟩
    cases hkv : kv.value.op with
    | REPL_OP_SET =>
      have hbr : bad ∈ rest := by
        rcases List.mem_cons.mp hm with rfl | h
        · rw [hkv] at hop
          exact absurd rfl hop.1
        · exact h
      simp only [restoreReplayLoop, RecordKey.decode, RecordValue.decode, hkv]
      exact ih _ ⟨bad, hbr, hop⟩
    | REPL_OP_DEL =>
      have hbr : bad ∈ rest := by
        rcases List.mem_cons.mp hm with rfl | h
        · rw [hkv] at hop
          exact absurd rfl hop.2
        · exact h
      simp only [restoreReplayLoop, RecordKey.decode, hkv]
      exact ih _ ⟨bad, hbr, hop⟩
    | REPL_OP_NONE =>
      simp only [restoreReplayLoop, RecordKey.decode, hkv]

/-- The restore replay loop only issues setKV/delKV events — never a
commit. -/
theorem restoreReplayLoop_no_commit (logs : List ReplLog) :
    ∀ (txn : Txn) (s : Nat),
    Event.committed s ∉ (restoreReplayLoop logs txn).2 := by
  induction logs with
  | nil =>
    intro txn s
    simp [restoreReplayLoop]
  | cons kv rest ih =>
    intro txn s
    cases hkv : kv.value.op <;>
      simp [restoreReplayLoop, RecordKey.decode, RecordValue.decode, hkv, ih]

/-- C10: a restorebinlog request containing a record whose operation is
neither SET nor DELETE returns the parameter error "invalid replop";
the in-flight local transaction is never committed, so the server's
storage is unchanged and no commit event is emitted — operations
replayed from earlier records become visible only if the whole call
succeeds. -/
theorem restore_invalid_replop {svr : Server} {args : List Buf}
    {a1 : Buf} {sId : Nat} {logs : List ReplLog} {front : ReplLog}
    {st : Store}
    (hev : args.length % 2 = 0)
    (h1 : args.get? 1 = some a1) (hs1 : stoul a1 = .ok sId)
    (hlt : sId < svr.stores.length)
    (hdec : restoreDecodeLoop (args.drop 2) = some (.ok logs))
    (hhd : logs.head? = some front)
    (huni : ∀ kv ∈ logs, kv.key.txnId = front.key.txnId)
    (hdb : getDb svr sId false = .ok st)
    (htx : st.createTxnFail = none)
    (hbad : ∃ kv ∈ logs,
      kv.value.op ≠ .REPL_OP_SET ∧ kv.value.op ≠ .REPL_OP_DEL) :
    (restoreRun svr args).1 = .err ⟨.ERR_PARSEOPT, "invalid replop"⟩ ∧
    (restoreRun svr args).2.1 = svr ∧
    ∀ s, Event.committed s ∉ (restoreRun svr args).2.2 := by
  have hany : logs.any (fun kv => kv.key.txnId != front.key.txnId) = false := by
    rw [List.any_eq_false]
    intro kv hm
    simpa using huni kv hm
  have hrl := restoreReplayLoop_bad_op logs ⟨[]⟩ hbad
  have hnc := restoreReplayLoop_no_commit logs ⟨[]⟩
  unfold restoreRun
  rw [if_neg (by omega)]
  simp only [h1, hs1]
  rw [if_neg (by omega)]
  simp only [hdec, hhd, hany, Bool.false_eq_true, if_false, hdb, htx, hrl]
  refine ⟨trivial, trivial, ?_⟩
  intro s
  simp [hnc]

/-- A record of transaction 10 whose operation is neither SET nor
DELETE. -/
def exBadOp : ReplLog := ⟨⟨10, 2⟩, ⟨.REPL_OP_NONE, [9], []⟩⟩

/-- `restorebinlog 0 <exR1> <exR4>`: two records of different
transactions (10 and 11). -/
def exRestoreMixedArgs : List Buf :=
  [[114], [48], (ReplLog.encode exR1).1, (ReplLog.encode exR1).2,
   (ReplLog.encode exR4).1, (ReplLog.encode exR4).2]

/-- `restorebinlog 0 <exR1> <exBadOp>`: one transaction (10), second
record with an invalid operation. -/
def exRestoreBadArgs : List Buf :=
  [[114], [48], (ReplLog.encode exR1).1, (ReplLog.encode exR1).2,
   (ReplLog.encode exBadOp).1, (ReplLog.encode exBadOp).2]

/-- Witness for C4: the mixed-transaction restore request is rejected
with the parameter error, the server untouched and the trace empty. -/
theorem restore_mixed_txn_rejected_witness :
    restoreRun exServer exRestoreMixedArgs =
      (.err ⟨.ERR_PARSEOPT, "txn id not all the same"⟩, exServer, []) :=
  @restore_mixed_txn_rejected exServer exRestoreMixedArgs [48] 0
    [exR1, exR4] exR1
    (by decide) (by decide) (by decide) (by decide) (by decide) (by decide)
    ⟨exR4, by decide, by decide⟩

/-- Witness for C10: the invalid-operation restore request fails with
"invalid replop", the server is unchanged and shard 0 sees no commit. -/
theorem restore_invalid_replop_witness :
    (restoreRun exServer exRestoreBadArgs).1 =
      .err ⟨.ERR_PARSEOPT, "invalid replop"⟩ ∧
    (restoreRun exServer exRestoreBadArgs).2.1 = exServer ∧
    Event.committed 0 ∉ (restoreRun exServer exRestoreBadArgs).2.2 :=
  have h := @restore_invalid_replop exServer exRestoreBadArgs [48] 0
    [exR1, exBadOp] exR1 exStore
    (by decide) (by decide) (by decide) (by decide) (by decide) (by decide)
    (by decide) (by decide) (by decide)
    ⟨exBadOp, by decide, by decide, by decide⟩
  ⟨h.1, h.2.1, h.2.2 0⟩

/-!
## Apply protocol claims (C2, C3, C7)
-/

/-- A bad group with some entry of `m` triggers the framing validation:
`checkGroups` reports a violation. -/
theorem checkGroups_some_of_bad (m : List (Nat × List ReplLog))
    (h : ∃ g ∈ m, ∃ f la, g.2.head? = some f ∧ g.2.getLast? = some la ∧
      (f.key.flag &&& REPL_GROUP_START = 0 ∨
       la.key.flag &&& REPL_GROUP_END = 0)) :
    ∃ msg, checkGroups m = some msg := by
  induction m with
  | nil => simp at h
  | cons g rest ih =>
    obtain ⟨bad, hm, f, la, hf, hla, hor⟩ := h
    obtain ⟨k, l⟩ := g
    simp only [checkGroups]
    cases hh : l.head? with
    | none => exact ⟨"invariant violated: empty binlog group", rfl⟩
    | some first =>
      cases hl : l.getLast? with
      | none => exact ⟨"invariant violated: empty binlog group", rfl⟩
      | some last =>
        by_cases h1 : first.key.flag &&& REPL_GROUP_START = 0
        · exact ⟨"txnId:" ++ toString k ++ " first record not marked begin",
            by simp [h1]⟩
        · by_cases h2 : last.key.flag &&& REPL_GROUP_END = 0
          · exact ⟨"txnId:" ++ toString k ++ " last record not marked end",
              by simp [h1, h2]⟩
          · have hbr : bad ∈ rest := by
              rcases List.mem_cons.mp hm with rfl | hr
              · rw [hh] at hf
                rw [hl] at hla
                cases hf
                cases hla
                rcases hor with hx | hx
                · exact absurd hx h1
                · exact absurd hx h2
              · exact hr
            obtain ⟨msg, hmsg⟩ := ih ⟨bad, hbr, f, la, hf, hla, hor⟩
            exact ⟨msg, by simp [h1, h2, hmsg]⟩

/-- C2: when any transaction group of an applybinlogs call violates the
framing invariant (first record without GROUP_START or last without
GROUP_END), the call faults (`LOG(FATAL)`) with no event issued — the
server is untouched, no lock is taken and nothing is delegated to the
replication manager or applied to storage. -/
theorem apply_framing_validation {svr : Server} {sessId : Nat}
    {args : List Buf} {a1 : Buf} {sId : Nat}
    {m : List (Nat × List ReplLog)}
    (h1 : args.get? 1 = some a1) (hs1 : stoul a1 = .ok sId)
    (hlt : sId < svr.stores.length)
    (hgrp : applyGroupLoop (args.drop 2) [] = some (.ok m))
    (hbad : ∃ g ∈ m, ∃ f la, g.2.head? = some f ∧ g.2.getLast? = some la ∧
      (f.key.flag &&& REPL_GROUP_START = 0 ∨
       la.key.flag &&& REPL_GROUP_END = 0)) :
    (∃ msg, (applyRun svr sessId args).1 = .fatal msg) ∧
    (applyRun svr sessId args).2.1 = svr ∧
    (applyRun svr sessId args).2.2 = [] := by
  obtain ⟨msg, hchk⟩ := checkGroups_some_of_bad m hbad
  unfold applyRun
  simp only [h1, hs1]
  rw [if_neg (by omega)]
  simp only [hgrp, hchk]
  exact ⟨⟨msg, rfl⟩, trivial, trivial⟩

/-- Every key of `mapInsert m k v` is `k` or a key of `m`. -/
theorem mapInsert_keys_sub (k : Nat) (v : ReplLog) :
    ∀ (m : List (Nat × List ReplLog)),
    ∀ x ∈ (mapInsert m k v).map Prod.fst, x = k ∨ x ∈ m.map Prod.fst := by
  intro m
  induction m with
  | nil =>
    intro x hx
    simp [mapInsert] at hx
    exact Or.inl hx
  | cons g rest ih =>
    obtain ⟨k', l⟩ := g
    intro x hx
    simp only [mapInsert] at hx
    by_cases hlt : k < k'
    · rw [if_pos hlt] at hx
      simp at hx
      rcases hx with rfl | rfl | hx
      · exact Or.inl rfl
      · exact Or.inr (by simp)
      · exact Or.inr (by simp [hx])
    · rw [if_neg hlt] at hx
      by_cases heq : k = k'
      · rw [if_pos heq] at hx
        simp at hx
        rcases hx with rfl | hx
        · exact Or.inr (by simp)
        · exact Or.inr (by simp [hx])
      · rw [if_neg heq] at hx
        simp at hx
        rcases hx with rfl | hx
        · exact Or.inr (by simp)
        · rcases ih x (by simpa using hx) with h | h
          · exact Or.inl h
          · exact Or.inr (by simp [h])

/-- `mapInsert` preserves strict ascending key order. -/
theorem mapInsert_sorted (k : Nat) (v : ReplLog) :
    ∀ (m : List (Nat × List ReplLog)),
    List.Pairwise (fun a b => a < b) (m.map Prod.fst) →
    List.Pairwise (fun a b => a < b) ((mapInsert m k v).map Prod.fst) := by
  intro m
  induction m with
  | nil =>
    intro _
    simp [mapInsert]
  | cons g rest ih =>
    obtain ⟨k', l⟩ := g
    intro hs
    simp only [List.map_cons, List.pairwise_cons] at hs
    obtain ⟨hhead, htail⟩ := hs
    simp only [mapInsert]
    by_cases hlt : k < k'
    · rw [if_pos hlt]
      simp only [List.map_cons, List.pairwise_cons]
      refine ⟨?_, ?_, htail⟩
      · intro b hb
        simp only [List.map_cons, List.mem_cons] at hb
        rcases hb with rfl | hb
        · exact hlt
        · exact Nat.lt_trans hlt (hhead b hb)
      · exact hhead
    · rw [if_neg hlt]
      by_cases heq : k = k'
      · rw [if_pos heq]
        simp only [List.map_cons, List.pairwise_cons]
        exact ⟨hhead, htail⟩
      · rw [if_neg heq]
        simp only [List.map_cons, List.pairwise_cons]
        refine ⟨?_, ih htail⟩
        intro b hb
        rcases mapInsert_keys_sub k v rest b hb with rfl | hb'
        · omega
        · exact hhead b hb'

/-- A key smaller than every key of the map looks up to nothing. -/
theorem lookup_none_of_not_mem_keys :
    ∀ (rest : List (Nat × List ReplLog)) (q : Nat),
    q ∉ rest.map Prod.fst → List.lookup q rest = none := by
  intro rest
  induction rest with
  | nil => intro q _; rfl
  | cons g tl ih =>
    obtain ⟨k', l⟩ := g
    intro q hq
    simp only [List.map_cons, List.mem_cons] at hq
    push_neg at hq
    simp only [List.lookup, show (q == k') = false by simpa using hq.1]
    exact ih q hq.2

/-- Looking a key up after a `mapInsert` into a key-sorted map: the
inserted record lands at the end of its own key's group and leaves
every other group alone. -/
theorem groupGet_mapInsert (k : Nat) (v : ReplLog) :
    ∀ (m : List (Nat × List ReplLog)),
    List.Pairwise (fun a b => a < b) (m.map Prod.fst) →
    ∀ (q : Nat),
    groupGet (mapInsert m k v) q =
      groupGet m q ++ (if q = k then [v] else []) := by
  intro m
  induction m with
  | nil =>
    intro _ q
    by_cases hqk : q = k
    · simp [mapInsert, groupGet, List.lookup, hqk]
    · simp [mapInsert, groupGet, List.lookup, hqk,
        show (q == k) = false by simpa using hqk]
  | cons g rest ih =>
    obtain ⟨k', l⟩ := g
    intro hs q
    simp only [List.map_cons, List.pairwise_cons] at hs
    obtain ⟨hhead, htail⟩ := hs
    simp only [mapInsert]
    by_cases hlt : k < k'
    · rw [if_pos hlt]
      by_cases hqk : q = k
      · subst hqk
        have hnm : q ∉ rest.map Prod.fst := by
          intro hmem
          exact absurd (hhead q hmem) (by omega)
        simp [groupGet, List.lookup, lookup_none_of_not_mem_keys rest q hnm,
          show (q == k') = false by simp; omega]
      · simp [groupGet, List.lookup, hqk,
          show (q == k) = false by simpa using hqk]
    · rw [if_neg hlt]
      by_cases heq : k = k'
      · subst heq
        rw [if_pos rfl]
        by_cases hqk : q = k
        · subst hqk
          simp [groupGet, List.lookup]
        · simp [groupGet, List.lookup, hqk,
            show (q == k) = false by simpa using hqk]
      · rw [if_neg heq]
        by_cases hqk : q = k'
        · subst hqk
          simp [groupGet, List.lookup,
            show (q = k) = False by simp; omega]
        · simp only [groupGet, List.lookup,
            show (q == k') = false by simpa using hqk]
          exact ih htail q

/-- The grouping loop keeps the map sorted by key. -/
theorem applyGroupLoop_ok_sorted :
    ∀ (l : List Buf) (m₀ : List (Nat × List ReplLog)),
    ∀ (m : List (Nat × List ReplLog)),
    List.Pairwise (fun a b => a < b) (m₀.map Prod.fst) →
    applyGroupLoop l m₀ = some (.ok m) →
    List.Pairwise (fun a b => a < b) (m.map Prod.fst) := by
  intro l m₀
  induction l, m₀ using applyGroupLoop.induct with
  | case1 m₀ =>
    intro m hs h
    simp [applyGroupLoop] at h
    rw [← h]
    exact hs
  | case2 kb m₀ =>
    intro m _ h
    simp [applyGroupLoop] at h
  | case3 kb vb rest m₀ e hdec =>
    intro m _ h
    simp [applyGroupLoop, hdec] at h
  | case4 kb vb rest m₀ log hdec ih =>
    intro m hs h
    simp only [applyGroupLoop, hdec] at h
    exact ih m (mapInsert_sorted log.key.txnId log m₀ hs) h

/-- When the grouping loop succeeds, arrival-order decoding succeeds
too, and each transaction's group collects exactly that transaction's
records in arrival order. -/
theorem applyGroupLoop_ok_content :
    ∀ (l : List Buf) (m₀ : List (Nat × List ReplLog)),
    ∀ (m : List (Nat × List ReplLog)),
    List.Pairwise (fun a b => a < b) (m₀.map Prod.fst) →
    applyGroupLoop l m₀ = some (.ok m) →
    ∃ logs, decodePairs l = some (.ok logs) ∧
      ∀ q, groupGet m q =
        groupGet m₀ q ++ logs.filter (fun r => r.key.txnId == q) := by
  intro l m₀
  induction l, m₀ using applyGroupLoop.induct with
  | case1 m₀ =>
    intro m _ h
    simp [applyGroupLoop] at h
    rw [← h]
    exact ⟨[], rfl, by simp [decodePairs]⟩
  | case2 kb m₀ =>
    intro m _ h
    simp [applyGroupLoop] at h
  | case3 kb vb rest m₀ e hdec =>
    intro m _ h
    simp [applyGroupLoop, hdec] at h
  | case4 kb vb rest m₀ log hdec ih =>
    intro m hs h
    simp only [applyGroupLoop, hdec] at h
    obtain ⟨logs, hld, hgq⟩ :=
      ih m (mapInsert_sorted log.key.txnId log m₀ hs) h
    refine ⟨log :: logs, by simp [decodePairs, hdec, hld], ?_⟩
    intro q
    rw [hgq q, groupGet_mapInsert log.key.txnId log m₀ hs q,
      List.append_assoc]
    congr 1
    by_cases hq : q = log.key.txnId
    · subst hq
      simp [List.filter_cons]
    · simp [List.filter_cons, hq,
        show (log.key.txnId == q) = false by simp; omega]

/-- C3 (amended): the batches an applybinlogs call hands to the
replication manager are keyed in strictly ascending transaction-id
order (the iteration order of the `std::map` the code groups into), and
within each batch the records keep the arrival order of the input; the
sequence coincides with arrival order of the batches' first records
only when those first appearances are already ascending. -/
theorem apply_batch_order_sorted {svr : Server} {sessId : Nat}
    {args : List Buf} {a1 : Buf} {sId : Nat} {st : Store}
    {m : List (Nat × List ReplLog)} {logs : List ReplLog}
    (h1 : args.get? 1 = some a1) (hs1 : stoul a1 = .ok sId)
    (hgrp : applyGroupLoop (args.drop 2) [] = some (.ok m))
    (hchk : checkGroups m = none)
    (hdb : getDb svr sId false = .ok st)
    (hlogs : decodePairs (args.drop 2) = some (.ok logs)) :
    (applyRun svr sessId args).2.2 =
      [Event.lockAcquired sId .LOCK_IX,
       Event.applyDelegated sId sessId m] ∧
    List.Pairwise (fun a b => a < b) (m.map Prod.fst) ∧
    ∀ q, groupGet m q = logs.filter (fun r => r.key.txnId == q) := by
  have hlt : sId < svr.stores.length := get?_some_lt (getDb_strict_ok hdb).1
  obtain ⟨logs', hld, hgq⟩ :=
    applyGroupLoop_ok_content (args.drop 2) [] m (by simp) hgrp
  have hlogs' : logs' = logs := by
    rw [hld] at hlogs
    simpa using hlogs
  subst hlogs'
  refine ⟨?_, applyGroupLoop_ok_sorted (args.drop 2) [] m (by simp) hgrp, ?_⟩
  · unfold applyRun
    simp only [h1, hs1]
    rw [if_neg (by omega)]
    simp only [hgrp, hchk, hdb]
  · intro q
    have := hgq q
    simpa [groupGet] using this

/-!
### Fixtures for the apply claims
-/

/-- A single-record transaction 2 (GROUP_START and GROUP_END bits). -/
def exS1 : ReplLog := ⟨⟨2, 3⟩, ⟨.REPL_OP_SET, [1], [2]⟩⟩

/-- A single-record transaction 1 (GROUP_START and GROUP_END bits). -/
def exS2 : ReplLog := ⟨⟨1, 3⟩, ⟨.REPL_OP_SET, [3], [4]⟩⟩

/-- `applybinlogs 0 <exS1> <exS2>`: transaction 2 arrives before
transaction 1. -/
def exApplyOrderArgs : List Buf :=
  [[97], [48], (ReplLog.encode exS1).1, (ReplLog.encode exS1).2,
   (ReplLog.encode exS2).1, (ReplLog.encode exS2).2]

/-- Counterexample to C3 as stated: on an input whose transactions
arrive as 2 then 1, the map handed to the replication manager is keyed
[1, 2] — ascending transaction-id order — not the arrival order [2, 1]
of the batches' first records. -/
theorem apply_order_not_arrival_cex :
    (applyRun exServer 7 exApplyOrderArgs).2.2 =
      [Event.lockAcquired 0 .LOCK_IX,
       Event.applyDelegated 0 7 [(1, [exS2]), (2, [exS1])]] ∧
    decodePairs (exApplyOrderArgs.drop 2) = some (.ok [exS1, exS2]) ∧
    firstAppearances ([exS1, exS2].map (fun r => r.key.txnId)) = [2, 1] ∧
    [(1, [exS2]), (2, [exS1])].map Prod.fst ≠ [2, 1] := by decide

/-- Witness for C3 (amended) at the same input: the delegated map is
[(1, [exS2]), (2, [exS1])], its keys are strictly ascending, and
group 1 holds exactly the arrival-order records of transaction 1. -/
theorem apply_batch_order_sorted_witness :
    (applyRun exServer 7 exApplyOrderArgs).2.2 =
      [Event.lockAcquired 0 .LOCK_IX,
       Event.applyDelegated 0 7 [(1, [exS2]), (2, [exS1])]] ∧
    List.Pairwise (fun a b => a < b)
      ([(1, [exS2]), (2, [exS1])].map Prod.fst) ∧
    groupGet [(1, [exS2]), (2, [exS1])] 1 =
      [exS1, exS2].filter (fun r => r.key.txnId == 1) :=
  have h := @apply_batch_order_sorted exServer 7 exApplyOrderArgs [48] 0
    exStore [(1, [exS2]), (2, [exS1])] [exS1, exS2]
    (by decide) (by decide) (by decide) (by decide) (by decide) (by decide)
  ⟨h.1, h.2.1, h.2.2 1⟩

/-- `applybinlogs 0 <single unpaired key>`: odd record list. -/
def exApplyOddArgs : List Buf := [[97], [48], [9]]

/-- C7 (code bug): an applybinlogs request with an odd-length record
list is not rejected — there is no parameter-error path for it — and
the decode loop's `args[i+1]` read runs one past the end of the
argument vector (undefined behaviour, `Outcome.undef` in this model),
contrary to the spec's error taxonomy and to the even-length check that
`RestoreBinlogCommand::run` performs. -/
theorem applybinlogs_odd_arglist_oob :
    (exApplyOddArgs.length - 2) % 2 = 1 ∧
    applyGroupLoop (exApplyOddArgs.drop 2) [] = none ∧
    (applyRun exServer 7 exApplyOddArgs).1 = Outcome.undef ∧
    restoreRun exServer exApplyOddArgs =
      (.err ⟨.ERR_PARSEOPT, "invalid param len"⟩, exServer, []) := by
  refine ⟨by decide, by decide, by decide, ?_⟩
  rfl

/-- A transaction-5 group whose only record lacks the GROUP_START bit. -/
def exBadFrame : ReplLog := ⟨⟨5, 2⟩, ⟨.REPL_OP_SET, [1], [2]⟩⟩

/-- `applybinlogs 0 <exBadFrame>`. -/
def exApplyBadFrameArgs : List Buf :=
  [[97], [48], (ReplLog.encode exBadFrame).1, (ReplLog.encode exBadFrame).2]

/-- Witness for C2: the badly framed batch makes the call fault with no
event at all — nothing locked, delegated, or applied. -/
theorem apply_framing_validation_witness :
    (∃ msg, (applyRun exServer 7 exApplyBadFrameArgs).1 = .fatal msg) ∧
    (applyRun exServer 7 exApplyBadFrameArgs).2.1 = exServer ∧
    (applyRun exServer 7 exApplyBadFrameArgs).2.2 = [] :=
  @apply_framing_validation exServer 7 exApplyBadFrameArgs [48] 0
    [(5, [exBadFrame])]
    (by decide) (by decide) (by decide) (by decide)
    ⟨(5, [exBadFrame]), by decide, exBadFrame, exBadFrame,
      by decide, by decide, Or.inl (by decide)⟩

/-!
## Topology control claims (C8)
-/

/-- First-error semantics of the all-shards attach/detach loop: shards
are processed in ascending id order; closed shards are skipped without
error; if every open shard before `k` changes source successfully and
open shard `k` fails with `e`, the loop returns `e`, leaves the stores
and the failure oracle untouched, updates the source descriptors of
exactly the open shards in `[i, k)`, and leaves every other descriptor
(including all shards at or after `k`) unchanged. -/
theorem slaveofAllLoop_first_error
    (count : Nat) (ip : Buf) (port : Nat) (srcOf : Nat → Nat) :
    ∀ (n i : Nat) (svr : Server) (k : Nat) (e : Status),
    count - i = n →
    count = svr.stores.length →
    svr.replMgr.sources.length = svr.stores.length →
    i ≤ k → k < count →
    storeOpenB svr k = true →
    svr.replMgr.changeFail k = some e →
    (∀ j, i ≤ j → j < k → storeOpenB svr j = true →
      svr.replMgr.changeFail j = none) →
    (slaveofAllLoop count ip port srcOf svr i).1 = .err e ∧
    (slaveofAllLoop count ip port srcOf svr i).2.stores = svr.stores ∧
    (slaveofAllLoop count ip port srcOf svr i).2.replMgr.changeFail
      = svr.replMgr.changeFail ∧
    ∀ j, (slaveofAllLoop count ip port srcOf svr i).2.replMgr.sources.get? j
      = if i ≤ j ∧ j < k ∧ storeOpenB svr j = true
        then some ⟨ip, port, srcOf j⟩
        else svr.replMgr.sources.get? j := by
  intro n
  induction n with
  | zero =>
    intro i svr k e hn hcnt hlen hik hk hopen hfail hpre
    omega
  | succ n ih =>
    intro i svr k e hn hcnt hlen hik hk hopen hfail hpre
    have hic : i < count := by omega
    rw [slaveofAllLoop, if_pos hic]
    cases hst : svr.stores.get? i with
    | none =>
      exfalso
      have hni := List.get?_eq_none.mp hst
      omega
    | some st =>
      have hst2 : svr.stores[i]? = some st := by
        rw [← List.get?_eq_getElem?]
        exact hst
      have hdb : getDb svr i true = .ok st := by
        simp [getDb, hst2]
      simp only [hdb]
      by_cases hio : st.isOpen = false
      · rw [if_pos hio]
        have hopeni : storeOpenB svr i = false := by
          simp [storeOpenB, hst2, hio]
        have hink : i ≠ k := by
          intro hh
          rw [hh] at hopeni
          rw [hopeni] at hopen
          exact absurd hopen (by simp)
        have hstep := ih (i + 1) svr k e (by omega) hcnt hlen (by omega) hk
          hopen hfail (fun j hj1 hj2 hj3 => hpre j (by omega) hj2 hj3)
        refine ⟨hstep.1, hstep.2.1, hstep.2.2.1, ?_⟩
        intro j
        rw [hstep.2.2.2 j]
        by_cases h1 : i + 1 ≤ j ∧ j < k ∧ storeOpenB svr j = true
        · rw [if_pos h1, if_pos ⟨by omega, h1.2⟩]
        · rw [if_neg h1, if_neg ?_]
          intro hc
          by_cases hji : j = i
          · rw [hji] at hc
            rw [hopeni] at hc
            exact absurd hc.2.2 (by simp)
          · exact h1 ⟨by omega, hc.2⟩
      · rw [if_neg hio]
        have hopeni : storeOpenB svr i = true := by
          simp [storeOpenB, hst2]
          simpa using hio
        rcases Nat.eq_or_lt_of_le hik with rfl | hilt
        · rw [changeReplSource, hfail]
          refine ⟨rfl, rfl, rfl, ?_⟩
          intro j
          rw [if_neg ?_]
          rintro ⟨hj1, hj2, -⟩
          omega
        · have hnone : svr.replMgr.changeFail i = none :=
            hpre i (Nat.le_refl i) hilt hopeni
          rw [changeReplSource, hnone]
          have hstep := ih (i + 1)
            { svr with replMgr :=
                { svr.replMgr with sources :=
                    svr.replMgr.sources.set i ⟨ip, port, srcOf i⟩ } }
            k e (by omega) hcnt (by simpa using hlen) (by omega) hk
            hopen hfail (fun j hj1 hj2 hj3 => hpre j (by omega) hj2 hj3)
          refine ⟨hstep.1, hstep.2.1, hstep.2.2.1, ?_⟩
          intro j
          have hfin : _ = if i + 1 ≤ j ∧ j < k ∧ storeOpenB svr j = true
              then some (⟨ip, port, srcOf j⟩ : SourceDesc)
              else (svr.replMgr.sources.set i ⟨ip, port, srcOf i⟩).get? j :=
            hstep.2.2.2 j
          rw [hfin]
          by_cases hji : j = i
          · subst hji
            rw [if_neg (by omega), if_pos ⟨Nat.le_refl j, hilt, hopeni⟩]
            rw [List.get?_set_eq_of_lt]
            omega
          · by_cases h1 : i + 1 ≤ j ∧ j < k ∧ storeOpenB svr j = true
            · rw [if_pos h1, if_pos ⟨by omega, h1.2⟩]
            · rw [if_neg h1, if_neg (fun hc => h1 ⟨by omega, hc.2⟩)]
              rw [List.get?_set_ne _ _ (fun hh => hji hh.symm)]

/-- C8: for an all-shards attach (`slaveof host port`) and an
all-shards detach (`slaveof no one`), shards are processed in ascending
id order and closed shards are skipped without error; if changing shard
k's source fails, the call returns that first error, shards before k
keep their already-changed descriptors (attach: (host, port, same id);
detach: ("", 0, 0)), and every other shard — closed, or at or after k —
keeps its previous descriptor. -/
theorem slaveof_bulk_first_error {svr : Server} {c ip pr nb ob : Buf}
    {port k : Nat} {e : Status}
    (hlen : svr.replMgr.sources.length = svr.stores.length)
    (hpr : stoul pr = .ok port)
    (hk : k < svr.stores.length)
    (hopen : storeOpenB svr k = true)
    (hfail : svr.replMgr.changeFail k = some e)
    (hbefore : ∀ j, j < k → storeOpenB svr j = true →
      svr.replMgr.changeFail j = none) :
    ((runSlaveofSomeOne svr [c, ip, pr]).1 = .err e ∧
     (runSlaveofSomeOne svr [c, ip, pr]).2.stores = svr.stores ∧
     ∀ j, (runSlaveofSomeOne svr [c, ip, pr]).2.replMgr.sources.get? j =
       if j < k ∧ storeOpenB svr j = true
       then some ⟨ip, port, j⟩
       else svr.replMgr.sources.get? j) ∧
    ((runSlaveofNoOne svr [c, nb, ob]).1 = .err e ∧
     (runSlaveofNoOne svr [c, nb, ob]).2.stores = svr.stores ∧
     ∀ j, (runSlaveofNoOne svr [c, nb, ob]).2.replMgr.sources.get? j =
       if j < k ∧ storeOpenB svr j = true
       then some ⟨[], 0, 0⟩
       else svr.replMgr.sources.get? j) := by
  have hloopA := slaveofAllLoop_first_error svr.stores.length ip port
    (fun i => i) (svr.stores.length - 0) 0 svr k e rfl rfl hlen
    (Nat.zero_le k) hk hopen hfail
    (fun j _ hj2 hj3 => hbefore j hj2 hj3)
  have hloopD := slaveofAllLoop_first_error svr.stores.length [] 0
    (fun _ => 0) (svr.stores.length - 0) 0 svr k e rfl rfl hlen
    (Nat.zero_le k) hk hopen hfail
    (fun j _ hj2 hj3 => hbefore j hj2 hj3)
  constructor
  · have hred : runSlaveofSomeOne svr [c, ip, pr] =
        slaveofAllLoop svr.stores.length ip port (fun i => i) svr 0 := by
      unfold runSlaveofSomeOne
      simp [hpr]
    rw [hred]
    refine ⟨hloopA.1, hloopA.2.1, ?_⟩
    intro j
    rw [hloopA.2.2.2 j]
    by_cases hc : j < k ∧ storeOpenB svr j = true
    · rw [if_pos ⟨Nat.zero_le j, hc.1, hc.2⟩, if_pos hc]
    · rw [if_neg (fun hh => hc ⟨hh.2.1, hh.2.2⟩), if_neg hc]
  · have hred : runSlaveofNoOne svr [c, nb, ob] =
        slaveofAllLoop svr.stores.length [] 0 (fun _ => 0) svr 0 := by
      unfold runSlaveofNoOne
      simp
    rw [hred]
    refine ⟨hloopD.1, hloopD.2.1, ?_⟩
    intro j
    rw [hloopD.2.2.2 j]
    by_cases hc : j < k ∧ storeOpenB svr j = true
    · rw [if_pos ⟨Nat.zero_le j, hc.1, hc.2⟩, if_pos hc]
    · rw [if_neg (fun hh => hc ⟨hh.2.1, hh.2.2⟩), if_neg hc]

/-- A closed shard. -/
def exStoreClosed : Store := ⟨false, [], [], none, none⟩

/-- The error shard 2's source change fails with. -/
def exErr : Status := ⟨.ERR_INTERNAL, "change repl source failed"⟩

/-- Four shards: 0 open, 1 closed, 2 open (whose source change fails),
3 open; all initially detached. -/
def exTopoServer : Server :=
  ⟨[exStore, exStoreClosed, exStore, exStore],
   ⟨[⟨[], 0, 0⟩, ⟨[], 0, 0⟩, ⟨[], 0, 0⟩, ⟨[], 0, 0⟩],
    fun j => if j = 2 then some exErr else none, none⟩⟩

/-- Witness for C8: `slaveof h 7` on the four-shard server stops at
shard 2's failure — shard 0 is already attached to ("h", 7, 0), the
closed shard 1 and the untouched shard 3 keep their descriptors — and
`slaveof no one` stops with the same first error. -/
theorem slaveof_bulk_first_error_witness :
    (runSlaveofSomeOne exTopoServer [[115], [104], [55]]).1 = .err exErr ∧
    (runSlaveofSomeOne exTopoServer
        [[115], [104], [55]]).2.replMgr.sources.get? 0 =
      some ⟨[104], 7, 0⟩ ∧
    (runSlaveofSomeOne exTopoServer
        [[115], [104], [55]]).2.replMgr.sources.get? 1 =
      exTopoServer.replMgr.sources.get? 1 ∧
    (runSlaveofSomeOne exTopoServer
        [[115], [104], [55]]).2.replMgr.sources.get? 3 =
      exTopoServer.replMgr.sources.get? 3 ∧
    (runSlaveofNoOne exTopoServer
        [[115], [110, 111], [111, 110, 101]]).1 = .err exErr :=
  have h := @slaveof_bulk_first_error exTopoServer [115] [104] [55]
    [110, 111] [111, 110, 101] 7 2 exErr
    (by decide) (by decide) (by decide) (by decide) (by decide) (by decide)
  ⟨h.1.1,
   (h.1.2.2 0).trans (if_pos (by decide)),
   (h.1.2.2 1).trans (if_neg (by decide)),
   (h.1.2.2 3).trans (if_neg (by decide)),
   h.2.1⟩

end TendisRepl

